import Mathlib

/-!
Shallow embedding of the playback scheduling and position-tracking engine of
the AudioPlayer component (src/unnamed/part_002, lines 145-377) together with
the audio-state handlers of App.tsx that drive its props.

Modelling conventions:
* `Rat` stands for the JS numbers involved (clock readings, offsets,
  durations); the claims are about exact arithmetic relations, not float
  rounding.
* An `AudioBufferSourceNode` (the spec's Emitter) is a `Source` record carrying
  the offset and context time at which `start` was called, the clip duration
  captured by its `onended` closure, and flags for `started`, `stopped`
  (explicit `stop()` call) and `signalled` (its `onended` already fired).
* The component state `PState` collects the React state variables
  (`isPlaying`, `buffer`, `context` presence, `currentTime`, `duration`,
  `isDragging`), the refs (`sourceRef`, `startTimeRef` as `startTime`,
  `pausedAtRef` as `pausedAt`, `animationRef` as the `anim` flag), the clock
  `now` (`context.currentTime`), and the list of all source nodes ever created
  (so stale `onended` deliveries can be modelled).
* React semantics used: a `set` to a state variable with an identical value
  does not re-render (`Object.is` bailout) and hence does not re-run effects;
  on a change of any entry of the dependency list
  `[isPlaying, buffer, context, onTogglePlay, isDragging]` (line 247) the
  playback effect's cleanup runs and then its body; the duration effect
  (deps `[buffer]`, lines 177-185) runs before the playback effect.  State
  updates issued inside one event handler are batched into a single re-render.
-/

/-- One `AudioBufferSourceNode`: handle, the `start(0, offset)` offset, the
`context.currentTime` at which it was started, the `buffer.duration` captured
by its `onended` closure, and its lifecycle flags. -/
structure Source where
  handle : Nat
  startOffset : Rat
  startedAt : Rat
  capDur : Rat
  started : Bool
  stopped : Bool
  signalled : Bool
deriving Repr, DecidableEq

/-- A source node is alive (an active Emitter) when it has been started and
has neither been stopped nor delivered its completion signal. -/
def aliveSrc (src : Source) : Bool :=
  src.started && !src.stopped && !src.signalled

/-- The state of the AudioPlayer component together with the audio props that
App.tsx passes to it. `buffer = some d` is a decoded clip of duration `d`. -/
structure PState where
  isPlaying : Bool
  buffer : Option Rat
  hasCtx : Bool
  now : Rat
  currentTime : Rat
  duration : Rat
  isDragging : Bool
  sourceRef : Option Nat
  startTime : Rat
  pausedAt : Rat
  anim : Bool
  sources : List Source
  nextHandle : Nat
deriving Repr, DecidableEq

/-- Effect of `stop()` on one node: marks the node referenced by `r` stopped
(the code wraps the call in try/catch, so stopping a finished node is a
no-op apart from the flag). -/
def stopApply (r : Option Nat) (src : Source) : Source :=
  if r = some src.handle then { src with stopped := true } else src

/-- Stop the node referenced by `r` inside a node list. -/
def stopList (r : Option Nat) (l : List Source) : List Source :=
  l.map (stopApply r)

/-- `sourceRef.current.stop()` (part_002 lines 229, 243, 266): stops the
referenced node without clearing the ref. -/
def stopRef (s : PState) : PState :=
  { s with sources := stopList s.sourceRef s.sources }

/-- `context.createBufferSource()` plus `source.buffer = buffer`: a fresh,
not-yet-started node whose `onended` closure captures the current clip
duration. -/
def primCreate (s : PState) : PState :=
  { s with
      sources := s.sources ++
        [⟨s.nextHandle, 0, 0, s.buffer.getD 0, false, false, false⟩],
      nextHandle := s.nextHandle + 1 }

/-- `sourceRef.current = source`. -/
def primSetRef (h : Nat) (s : PState) : PState :=
  { s with sourceRef := some h }

/-- `source.start(0, off)` records the start offset and start time and makes
the node audible. -/
def primStart (h : Nat) (off : Rat) (s : PState) : PState :=
  { s with
      sources := s.sources.map fun src =>
        if src.handle = h then
          { src with started := true, startOffset := off, startedAt := s.now }
        else src }

/-- Create a node, point `sourceRef` at it and start it at `off` — the
create/connect/assign/start block shared by the playback effect
(lines 193-200) and `handleSeekEnd` (lines 268-273). -/
def startNewSource (s : PState) (off : Rat) : PState :=
  primStart s.nextHandle off (primSetRef s.nextHandle (primCreate s))

/-- The playback effect's cleanup (lines 241-246): stop the referenced node
and cancel the animation frame. -/
def cleanupStep (s : PState) : PState :=
  { s with sources := stopList s.sourceRef s.sources, anim := false }

/-- The `isPlaying` branch of the playback effect (lines 191-224): start a
node at the stored offset `pausedAtRef`, set
`startTimeRef = context.currentTime - offset`, and schedule the animation
loop. -/
def playBody (s : PState) : PState :=
  { startNewSource s s.pausedAt with
      startTime := s.now - s.pausedAt, anim := true }

/-- The pause/stop branch of the playback effect (lines 226-239): stop and
clear the referenced node, save `pausedAtRef = context.currentTime -
startTimeRef` unless a drag is in progress, and cancel the animation frame. -/
def pauseBody (s : PState) : PState :=
  let s1 := { s with sources := stopList s.sourceRef s.sources,
                     sourceRef := none }
  let s2 := if s.isDragging then s1
            else { s1 with pausedAt := s1.now - s1.startTime }
  { s2 with anim := false }

/-- Body of the playback effect (lines 188-239), guarded by
`if (!buffer || !context) return`. -/
def playbackEffect (s : PState) : PState :=
  if s.buffer.isSome && s.hasCtx then
    (if s.isPlaying then playBody s else pauseBody s)
  else s

/-- One run of the playback effect as React performs it: previous cleanup,
then the body. -/
def effectRun (s : PState) : PState :=
  playbackEffect (cleanupStep s)

/-- The duration effect (lines 177-185): mirror `buffer.duration` into the
`duration` state, and on unload reset `duration`, `currentTime` and
`pausedAtRef` to 0. -/
def durationEffect (s : PState) : PState :=
  match s.buffer with
  | some d => { s with duration := d }
  | none => { s with duration := 0, currentTime := 0, pausedAt := 0 }

/-- `initAudio` in App.tsx (lines 114-119): create the `AudioContext` once.
`context` is in the playback effect's dependency list, so its appearance
re-runs the effect. -/
def opInitCtx (s : PState) : PState :=
  if s.hasCtx then s else effectRun { s with hasCtx := true }

/-- Drive the `isPlaying` prop to `b` (`setIsAudioPlaying` in App.tsx).  If
the value is unchanged React bails out and the playback effect does not
re-run; otherwise the effect runs with the new value. -/
def opSetPlaying (b : Bool) (s : PState) : PState :=
  if s.isPlaying = b then s
  else effectRun { s with isPlaying := b }

/-- Audio arrival in `handlePlayAudio` (App.tsx lines 315-319):
`setAudioBuffer(buffer); setIsAudioPlaying(true)` are batched into one
re-render, so the duration effect and then the playback effect run once with
both the new clip and `isPlaying = true`. -/
def opLoadPlay (d : Rat) (s : PState) : PState :=
  if s.buffer = some d ∧ s.isPlaying then s
  else effectRun (durationEffect { s with buffer := some d, isPlaying := true })

/-- `onClose` (App.tsx lines 523-527) and the reset path of `handlePlayAudio`
(lines 306-309): `setIsAudioPlaying(false); setAudioBuffer(null)` in one
re-render. -/
def opClose (s : PState) : PState :=
  if s.isPlaying = false ∧ s.buffer = none then s
  else effectRun (durationEffect { s with isPlaying := false, buffer := none })

/-- The monotonic clock advances: `context.currentTime` grows by `d`. -/
def opAdvance (d : Rat) (s : PState) : PState :=
  { s with now := s.now + d }

/-- One tick of `updateProgress` (lines 215-223): when no drag is in
progress, report `min(context.currentTime - startTimeRef, buffer.duration)`;
reschedule itself only while `isPlaying`. -/
def opTick (s : PState) : PState :=
  if s.anim then
    let s1 := if s.isDragging then s
              else { s with
                       currentTime :=
                         min (s.now - s.startTime) (s.buffer.getD 0) }
    { s1 with anim := s1.isPlaying }
  else s

/-- Mark the `onended` signal of node `h` as delivered. -/
def markSignalled (h : Nat) (s : PState) : PState :=
  { s with sources := s.sources.map fun src =>
      if src.handle = h then { src with signalled := true } else src }

/-- Body of the `onended` handler (lines 205-212 and 277-283): if
`context.currentTime - startTimeRef >= capDur - 0.1` (where `capDur` is the
clip duration captured by the firing node's closure), call `onTogglePlay()`
(toggling `isPlaying`), reset `pausedAtRef` and `currentTime` to 0, and let
the playback effect run for the toggled value. -/
def onEndHandler (capD : Rat) (s : PState) : PState :=
  if capD - 1/10 ≤ s.now - s.startTime then
    effectRun { s with pausedAt := 0, currentTime := 0,
                       isPlaying := !s.isPlaying }
  else s

/-- Delivery of the `onended` event of node `h`.  A node fires at most once:
either after `stop()` was called on it, or naturally once the clock has
passed `startedAt + (capDur - startOffset)` (a start offset at or past the
end fires immediately). -/
def opDeliver (h : Nat) (s : PState) : PState :=
  match s.sources.find? (fun src => src.handle = h) with
  | none => s
  | some src =>
      if src.started = true ∧ src.signalled = false ∧
          (src.stopped = true ∨
            src.startedAt + (src.capDur - src.startOffset) ≤ s.now) then
        onEndHandler src.capDur (markSignalled h s)
      else s

/-- `handleSeekStart` (lines 249-251): `setIsDragging(true)`.  `isDragging`
is in the playback effect's dependency list, so the effect re-runs. -/
def opSeekStart (s : PState) : PState :=
  if s.isDragging then s else effectRun { s with isDragging := true }

/-- The `max` attribute of the range input (line 331): `duration || 100`. -/
def sliderMax (s : PState) : Rat :=
  if s.duration = 0 then 100 else s.duration

/-- A range input clamps assigned values into `[min, max]`; the JSX declares
`min={0} max={duration || 100}` (lines 330-331), so the value reaching
`handleSeekChange` is the scrub intent clamped into that interval. -/
def sliderClamp (s : PState) (t : Rat) : Rat :=
  max 0 (min t (sliderMax s))

/-- `handleSeekChange` (lines 253-256): store the slider value into
`currentTime`. -/
def opSeekChange (t : Rat) (s : PState) : PState :=
  { s with currentTime := sliderClamp s t }

/-- `handleSeekEnd` (lines 258-287): bail out with no clip or context
(leaving `isDragging` set!); otherwise store the slider position into
`pausedAtRef`; if playing with a referenced node, stop it and start a fresh
node at the new offset; finally `setIsDragging(false)` re-runs the playback
effect when a drag was in progress. -/
def opSeekEnd (s : PState) : PState :=
  if s.buffer.isSome && s.hasCtx then
    let s1 := { s with pausedAt := s.currentTime }
    let s2 :=
      if s1.isPlaying && s1.sourceRef.isSome then
        { startNewSource (stopRef s1) s1.currentTime with
            startTime := s1.now - s1.currentTime }
      else s1
    if s2.isDragging then effectRun { s2 with isDragging := false } else s2
  else s

/-- The component mounts with no clip, no context, all refs zeroed
(lines 167-174). -/
def initState : PState :=
  { isPlaying := false, buffer := none, hasCtx := false, now := 0,
    currentTime := 0, duration := 0, isDragging := false, sourceRef := none,
    startTime := 0, pausedAt := 0, anim := false, sources := [],
    nextHandle := 0 }

/-- Reachable states: every interleaving of the operations App.tsx and the
browser can perform, with a monotonic clock, positive clip durations, and
clips only loaded once an `AudioContext` exists (`handlePlayAudio` guards
`generateNewsAudio` behind `if (audioContext)`). -/
inductive Reach : PState → Prop
  | init : Reach initState
  | initCtx {s} : Reach s → Reach (opInitCtx s)
  | setPlaying {s} (b : Bool) : Reach s → Reach (opSetPlaying b s)
  | loadPlay {s} (d : Rat) : Reach s → 0 < d → s.hasCtx = true →
      Reach (opLoadPlay d s)
  | close {s} : Reach s → Reach (opClose s)
  | advance {s} (d : Rat) : Reach s → 0 ≤ d → Reach (opAdvance d s)
  | tick {s} : Reach s → Reach (opTick s)
  | deliver {s} (h : Nat) : Reach s → Reach (opDeliver h s)
  | seekStart {s} : Reach s → Reach (opSeekStart s)
  | seekChange {s} (t : Rat) : Reach s → Reach (opSeekChange t s)
  | seekEnd {s} : Reach s → Reach (opSeekEnd s)

/-- Number of alive Emitters. -/
def aliveCount (s : PState) : Nat :=
  s.sources.countP fun src => aliveSrc src

/-- An active Emitter handle is present: `sourceRef` names a node that is
started, not stopped and not yet signalled. -/
def activeEmitterB (s : PState) : Bool :=
  s.sources.any fun src => s.sourceRef == some src.handle && aliveSrc src

/-- The start offset of the node currently referenced by `sourceRef`. -/
def refSrcStartOffset (s : PState) : Option Rat :=
  match s.sourceRef with
  | none => none
  | some h => (s.sources.find? (fun src => src.handle = h)).map
      (fun src => src.startOffset)

/-! Micro-step decomposition of `handleSeekEnd` while playing and dragging
(lines 258-287 followed by the drag-end re-run of the playback effect), and
concrete trace states used by witnesses and counterexamples. -/

/-- `pausedAtRef.current = currentTime` (line 262). -/
def seekA (s : PState) : PState := { s with pausedAt := s.currentTime }

/-- `sourceRef.current.stop()` (line 266). -/
def seekB (s : PState) : PState := stopRef (seekA s)

/-- `context.createBufferSource()` (line 268). -/
def seekC (s : PState) : PState := primCreate (seekB s)

/-- `sourceRef.current = source` (line 271). -/
def seekD (s : PState) : PState := primSetRef (seekB s).nextHandle (seekC s)

/-- `source.start(0, pausedAtRef.current)` (line 273). -/
def seekE (s : PState) : PState :=
  primStart (seekB s).nextHandle (seekA s).currentTime (seekD s)

/-- `startTimeRef.current = context.currentTime - pausedAtRef.current`
(line 274). -/
def seekF (s : PState) : PState :=
  { seekE s with startTime := (seekA s).now - (seekA s).currentTime }

/-- Cleanup of the playback effect re-running after `setIsDragging(false)`. -/
def seekG (s : PState) : PState := cleanupStep { seekF s with isDragging := false }

/-- `createBufferSource` of the re-run play branch. -/
def seekH (s : PState) : PState := primCreate (seekG s)

/-- `sourceRef.current = source` of the re-run play branch. -/
def seekI (s : PState) : PState := primSetRef (seekG s).nextHandle (seekH s)

/-- `source.start(0, offset)` of the re-run play branch. -/
def seekJ (s : PState) : PState :=
  primStart (seekG s).nextHandle (seekG s).pausedAt (seekI s)

/-- Final state of the re-run play branch. -/
def seekK (s : PState) : PState :=
  { seekJ s with startTime := (seekG s).now - (seekG s).pausedAt, anim := true }

/-- All states the player passes through during a seek-while-playing commit:
every observable instant of the stop-old-then-start-new handoff. -/
def seekEndMicro (s : PState) : List PState :=
  [s, seekA s, seekB s, seekC s, seekD s, seekE s, seekF s, seekG s, seekH s,
   seekI s, seekJ s, seekK s]

/-- A 10-second clip loaded and playing from offset 0 at clock 0. -/
def loadState : PState := opLoadPlay 10 (opInitCtx initState)

/-- Pause 11 seconds into a 10-second clip (1 second past its natural end):
the pause branch stores `pausedAtRef = 11` with no clamp. -/
def c1state : PState := opSetPlaying false (opAdvance 11 loadState)

/-- Playing, then a scrub to 9.95 seconds commits; the original Emitter
(handle 0) is stopped and replaced, its completion signal still pending. -/
def c3pre : PState :=
  opSeekEnd (opSeekChange (199/20) (opSeekStart (opAdvance 1 loadState)))

/-- Same shape with a scrub to 2 seconds, far from the end. -/
def c3amendpre : PState :=
  opSeekEnd (opSeekChange 2 (opSeekStart (opAdvance 1 loadState)))

/-- Natural completion of the 10-second clip at clock 10. -/
def c5state : PState := opDeliver 0 (opAdvance 10 loadState)

/-- Paused at elapsed 2, then a scrub to 12 (slider-clamped to 10) commits. -/
def c7state : PState :=
  opSeekEnd (opSeekChange 12 (opSeekStart (opSetPlaying false
    (opAdvance 2 loadState))))

/-- Play, pause after `t` seconds. -/
def pausedAfter (t : Rat) (s : PState) : PState :=
  opSetPlaying false (opAdvance t (opSetPlaying true s))

/-- Play, pause after `t` seconds, wait `u` seconds, play again. -/
def playPausePlay (t u : Rat) (s : PState) : PState :=
  opSetPlaying true (opAdvance u (pausedAfter t s))

/-! Helper lemmas about the node-list primitives. -/

theorem stopApply_handle (r : Option Nat) (src : Source) :
    (stopApply r src).handle = src.handle := by
  unfold stopApply; split <;> rfl

theorem stopApply_started (r : Option Nat) (src : Source) :
    (stopApply r src).started = src.started := by
  unfold stopApply; split <;> rfl

theorem aliveSrc_stopApply {r : Option Nat} {src : Source}
    (h : aliveSrc (stopApply r src) = true) :
    stopApply r src = src ∧ aliveSrc src = true ∧ r ≠ some src.handle := by
  by_cases hr : r = some src.handle
  · exfalso; simp [stopApply, hr, aliveSrc] at h
  · simp only [stopApply, hr, if_false, ite_false] at h ⊢
    exact ⟨trivial, h, hr⟩

theorem map_handle_of_preserve {f : Source → Source}
    (hf : ∀ src, (f src).handle = src.handle) (l : List Source) :
    (l.map f).map (fun src => src.handle) = l.map (fun src => src.handle) := by
  induction l with
  | nil => rfl
  | cons a l ih => simp [hf a, ih]

theorem map_handle_stopList (r : Option Nat) (l : List Source) :
    ((stopList r l).map (fun src => src.handle)) = l.map (fun src => src.handle) :=
  map_handle_of_preserve (stopApply_handle r) l

theorem no_alive_stopList {r : Option Nat} {l : List Source}
    (hW : ∀ t ∈ l, aliveSrc t = true → r = some t.handle) :
    ∀ src ∈ stopList r l, aliveSrc src = false := by
  intro src hmem
  rcases List.mem_map.mp hmem with ⟨t, ht, heq⟩
  subst heq
  by_contra hne
  rw [Bool.not_eq_false] at hne
  rcases aliveSrc_stopApply hne with ⟨_, halive, hr⟩
  exact hr (hW t ht halive)

theorem alive_of_mem_stopList {r : Option Nat} {l : List Source} {src : Source}
    (hmem : src ∈ stopList r l) (halive : aliveSrc src = true) :
    src ∈ l ∧ r ≠ some src.handle := by
  rcases List.mem_map.mp hmem with ⟨t, ht, heq⟩
  subst heq
  rcases aliveSrc_stopApply halive with ⟨heq2, _, hr⟩
  rw [heq2]
  exact ⟨ht, hr⟩

theorem startNewSource_sources (s : PState) (off : Rat)
    (hlt : ∀ t ∈ s.sources, t.handle ≠ s.nextHandle) :
    (startNewSource s off).sources =
      s.sources ++
        [⟨s.nextHandle, off, s.now, s.buffer.getD 0, true, false, false⟩] := by
  unfold startNewSource primStart primSetRef primCreate
  simp only []
  rw [List.map_append]
  congr 1
  · rw [List.map_congr_left (g := id) ?_, List.map_id]
    intro t ht
    simp only [id_eq, ite_eq_right_iff]
    intro hcontra
    exact absurd hcontra (hlt t ht)
  · simp

theorem startNewSource_ref (s : PState) (off : Rat) :
    (startNewSource s off).sourceRef = some s.nextHandle := rfl

/-! The reachability invariant of the player state. -/

/-- Invariant of every reachable player state: a clip implies a context,
clip durations are positive, node handles are exactly `0,...,nextHandle-1`
in order, every alive node is the referenced one in the Playing
configuration, the Playing configuration has an alive referenced node,
the referenced node is started and (while alive) consistent with
`startTimeRef`, and the tracked numbers are in range. -/
structure PInv (s : PState) : Prop where
  ctxOfBuf : s.buffer.isSome = true → s.hasCtx = true
  bufPos : ∀ d, s.buffer = some d → 0 < d
  handles : s.sources.map (fun src => src.handle) = List.range s.nextHandle
  aliveRef : ∀ src ∈ s.sources, aliveSrc src = true →
      s.sourceRef = some src.handle ∧ s.isPlaying = true ∧
        s.buffer.isSome = true
  playingAlive : s.isPlaying = true → s.buffer.isSome = true →
      ∃ src ∈ s.sources, s.sourceRef = some src.handle ∧ aliveSrc src = true
  refLink : ∀ src ∈ s.sources, s.sourceRef = some src.handle →
      src.started = true ∧
        (aliveSrc src = true → s.startTime = src.startedAt - src.startOffset)
  pausedNonneg : 0 ≤ s.pausedAt
  startLe : s.startTime ≤ s.now
  curNonneg : 0 ≤ s.currentTime
  durNonneg : 0 ≤ s.duration

/-- The part of the invariant that survives bare flips of `isPlaying`,
`isDragging`, `hasCtx` or a clip swap: what `effectRun` needs in order to
re-establish the full invariant. -/
structure PreInv (s : PState) : Prop where
  ctxOfBuf : s.buffer.isSome = true → s.hasCtx = true
  bufPos : ∀ d, s.buffer = some d → 0 < d
  handles : s.sources.map (fun src => src.handle) = List.range s.nextHandle
  aliveRefW : ∀ src ∈ s.sources, aliveSrc src = true →
      s.sourceRef = some src.handle
  refStarted : ∀ src ∈ s.sources, s.sourceRef = some src.handle →
      src.started = true
  pausedNonneg : 0 ≤ s.pausedAt
  startLe : s.startTime ≤ s.now
  curNonneg : 0 ≤ s.currentTime
  durNonneg : 0 ≤ s.duration

theorem PInv.toPre {s : PState} (hI : PInv s) : PreInv s :=
  { ctxOfBuf := hI.ctxOfBuf, bufPos := hI.bufPos, handles := hI.handles,
    aliveRefW := fun src hm ha => (hI.aliveRef src hm ha).1,
    refStarted := fun src hm hr => (hI.refLink src hm hr).1,
    pausedNonneg := hI.pausedNonneg, startLe := hI.startLe,
    curNonneg := hI.curNonneg, durNonneg := hI.durNonneg }

/-- Handles below `nextHandle` for every node, from `handles`. -/
theorem handle_lt_of_handles {s : PState}
    (h : s.sources.map (fun src => src.handle) = List.range s.nextHandle) :
    ∀ src ∈ s.sources, src.handle < s.nextHandle := by
  intro src hm
  have : src.handle ∈ s.sources.map (fun src => src.handle) :=
    List.mem_map.mpr ⟨src, hm, rfl⟩
  rw [h, List.mem_range] at this
  exact this

theorem cleanup_noalive {s : PState}
    (hW : ∀ src ∈ s.sources, aliveSrc src = true → s.sourceRef = some src.handle) :
    ∀ src ∈ (cleanupStep s).sources, aliveSrc src = false :=
  fun src hm => no_alive_stopList hW src hm

theorem pauseBody_ref (s : PState) : (pauseBody s).sourceRef = none := by
  cases hd : s.isDragging <;> simp [pauseBody, hd]

theorem playBody_inv {s : PState} (hP : PreInv s)
    (hna : ∀ src ∈ s.sources, aliveSrc src = false)
    (hb : s.buffer.isSome = true) (hc : s.hasCtx = true)
    (hp : s.isPlaying = true) : PInv (playBody s) := by
  have hlt : ∀ t ∈ s.sources, t.handle < s.nextHandle :=
    handle_lt_of_handles hP.handles
  have hne : ∀ t ∈ s.sources, t.handle ≠ s.nextHandle :=
    fun t ht => Nat.ne_of_lt (hlt t ht)
  have hsrcs : (playBody s).sources =
      s.sources ++
        [⟨s.nextHandle, s.pausedAt, s.now, s.buffer.getD 0, true, false,
          false⟩] := startNewSource_sources s s.pausedAt hne
  refine ⟨?_, ?_, ?_, ?_, ?_, ?_, ?_, ?_, ?_, ?_⟩
  · exact fun _ => hc
  · exact hP.bufPos
  · show (playBody s).sources.map _ = List.range (s.nextHandle + 1)
    rw [hsrcs, List.map_append, hP.handles, List.range_succ]
    rfl
  · intro src hm ha
    rw [hsrcs] at hm
    rcases List.mem_append.mp hm with hmem | hmem
    · exact absurd (hna src hmem) (by simp [ha])
    · rcases List.mem_singleton.mp hmem with rfl
      exact ⟨rfl, hp, hb⟩
  · intro _ _
    refine ⟨⟨s.nextHandle, s.pausedAt, s.now, s.buffer.getD 0, true, false,
        false⟩, ?_, rfl, by simp [aliveSrc]⟩
    rw [hsrcs]; exact List.mem_append_right _ (List.mem_singleton.mpr rfl)
  · intro src hm href
    rw [hsrcs] at hm
    have hh : src.handle = s.nextHandle := by
      have : some s.nextHandle = some src.handle := href
      exact (Option.some.injEq _ _ ▸ this).symm
    rcases List.mem_append.mp hm with hmem | hmem
    · exact absurd hh (hne src hmem)
    · rcases List.mem_singleton.mp hmem with rfl
      refine ⟨rfl, fun _ => ?_⟩
      show s.now - s.pausedAt = s.now - s.pausedAt
      rfl
  · exact hP.pausedNonneg
  · show s.now - s.pausedAt ≤ s.now
    have := hP.pausedNonneg
    linarith
  · exact hP.curNonneg
  · exact hP.durNonneg

theorem pauseBody_inv {s : PState} (hP : PreInv s)
    (hna : ∀ src ∈ s.sources, aliveSrc src = false)
    (hp : s.isPlaying = false) : PInv (pauseBody s) := by
  have hna2 : ∀ src ∈ (pauseBody s).sources, aliveSrc src = false := by
    intro src hm
    have hmem : src ∈ stopList s.sourceRef s.sources := by
      revert hm
      cases hd : s.isDragging <;> simp [pauseBody, hd]
    by_contra hcon
    rw [Bool.not_eq_false] at hcon
    rcases alive_of_mem_stopList hmem hcon with ⟨hmem2, _⟩
    exact absurd (hna src hmem2) (by simp [hcon])
  have hbuf : (pauseBody s).buffer = s.buffer := by
    cases hd : s.isDragging <;> simp [pauseBody, hd]
  have hplay : (pauseBody s).isPlaying = s.isPlaying := by
    cases hd : s.isDragging <;> simp [pauseBody, hd]
  refine ⟨?_, ?_, ?_, ?_, ?_, ?_, ?_, ?_, ?_, ?_⟩
  · rw [hbuf]
    intro h
    have : (pauseBody s).hasCtx = s.hasCtx := by
      cases hd : s.isDragging <;> simp [pauseBody, hd]
    rw [this]
    exact hP.ctxOfBuf h
  · intro d hd
    exact hP.bufPos d (hbuf ▸ hd)
  · have hsrcs : (pauseBody s).sources = stopList s.sourceRef s.sources := by
      cases hd : s.isDragging <;> simp [pauseBody, hd]
    have hn : (pauseBody s).nextHandle = s.nextHandle := by
      cases hd : s.isDragging <;> simp [pauseBody, hd]
    rw [hsrcs, hn, map_handle_stopList]
    exact hP.handles
  · intro src hm ha
    exact absurd (hna2 src hm) (by simp [ha])
  · rw [hplay, hp]
    intro h
    exact absurd h (by simp)
  · intro src _ href
    rw [pauseBody_ref] at href
    exact absurd href (by simp)
  · cases hd : s.isDragging with
    | true => simpa [pauseBody, hd] using hP.pausedNonneg
    | false =>
        have h1 := hP.startLe
        simp only [pauseBody, hd]
        simp
        linarith
  · cases hd : s.isDragging <;>
      simpa [pauseBody, hd] using hP.startLe
  · cases hd : s.isDragging <;>
      simpa [pauseBody, hd] using hP.curNonneg
  · cases hd : s.isDragging <;>
      simpa [pauseBody, hd] using hP.durNonneg

theorem cleanup_preinv {s : PState} (hP : PreInv s) : PreInv (cleanupStep s) := by
  refine ⟨hP.ctxOfBuf, hP.bufPos, ?_, ?_, ?_, hP.pausedNonneg, hP.startLe,
    hP.curNonneg, hP.durNonneg⟩
  · show (stopList s.sourceRef s.sources).map _ = _
    rw [map_handle_stopList]
    exact hP.handles
  · intro src hm ha
    exact absurd (no_alive_stopList hP.aliveRefW src hm) (by simp [ha])
  · intro src hm href
    rcases List.mem_map.mp hm with ⟨t, ht, heq⟩
    have hh : t.handle = src.handle := by rw [← heq, stopApply_handle]
    have hst : src.started = t.started := by rw [← heq, stopApply_started]
    rw [hst]
    exact hP.refStarted t ht (by rw [hh]; exact href)

theorem effectRun_inv {s : PState} (hP : PreInv s) : PInv (effectRun s) := by
  have hcPre : PreInv (cleanupStep s) := cleanup_preinv hP
  have hna : ∀ src ∈ (cleanupStep s).sources, aliveSrc src = false :=
    cleanup_noalive hP.aliveRefW
  unfold effectRun playbackEffect
  by_cases hb : ((cleanupStep s).buffer.isSome && (cleanupStep s).hasCtx) = true
  · rw [if_pos hb]
    rcases Bool.and_eq_true .. |>.mp hb with ⟨hb1, hb2⟩
    by_cases hp : (cleanupStep s).isPlaying = true
    · rw [if_pos hp]
      exact playBody_inv hcPre hna hb1 hb2 hp
    · rw [if_neg hp]
      exact pauseBody_inv hcPre hna (Bool.not_eq_true _ ▸ hp)
  · rw [if_neg hb]
    have hbuf : (cleanupStep s).buffer.isSome = false := by
      by_contra hcon
      rw [Bool.not_eq_false] at hcon
      exact hb (by rw [hcon, hcPre.ctxOfBuf hcon]; rfl)
    refine ⟨hcPre.ctxOfBuf, hcPre.bufPos, hcPre.handles, ?_, ?_, ?_,
      hcPre.pausedNonneg, hcPre.startLe, hcPre.curNonneg, hcPre.durNonneg⟩
    · intro src hm ha
      exact absurd (hna src hm) (by simp [ha])
    · intro _ hcon
      rw [hbuf] at hcon
      exact absurd hcon (by simp)
    · intro src hm href
      refine ⟨hcPre.refStarted src hm href, fun ha => ?_⟩
      exact absurd (hna src hm) (by simp [ha])

/-- The per-node function of `markSignalled`. -/
def markApply (h : Nat) (src : Source) : Source :=
  if src.handle = h then { src with signalled := true } else src

theorem markSignalled_sources (h : Nat) (s : PState) :
    (markSignalled h s).sources = s.sources.map (markApply h) := rfl

theorem markApply_handle (h : Nat) (src : Source) :
    (markApply h src).handle = src.handle := by
  unfold markApply; split <;> rfl

theorem markApply_started (h : Nat) (src : Source) :
    (markApply h src).started = src.started := by
  unfold markApply; split <;> rfl

theorem aliveSrc_markApply {h : Nat} {src : Source}
    (ha : aliveSrc (markApply h src) = true) :
    markApply h src = src ∧ aliveSrc src = true ∧ src.handle ≠ h := by
  by_cases hh : src.handle = h
  · exfalso; simp [markApply, hh, aliveSrc] at ha
  · simp only [markApply, hh, if_false, ite_false] at ha ⊢
    exact ⟨trivial, ha, hh⟩

theorem markApply_of_ne {h : Nat} {src : Source} (hh : src.handle ≠ h) :
    markApply h src = src := by
  simp [markApply, hh]

theorem mem_unique_handle {s : PState}
    (hh : s.sources.map (fun src => src.handle) = List.range s.nextHandle)
    {a b : Source} (ha : a ∈ s.sources) (hb : b ∈ s.sources)
    (heq : a.handle = b.handle) : a = b := by
  have hnd : (s.sources.map (fun src => src.handle)).Nodup := by
    rw [hh]; exact List.nodup_range _
  exact List.inj_on_of_nodup_map hnd ha hb heq

theorem markSignalled_preinv {h : Nat} {s : PState} (hP : PreInv s) :
    PreInv (markSignalled h s) := by
  refine ⟨hP.ctxOfBuf, hP.bufPos, ?_, ?_, ?_, hP.pausedNonneg, hP.startLe,
    hP.curNonneg, hP.durNonneg⟩
  · show ((markSignalled h s).sources).map _ = List.range s.nextHandle
    rw [markSignalled_sources, map_handle_of_preserve (markApply_handle h)]
    exact hP.handles
  · intro src hm ha
    rw [markSignalled_sources] at hm
    rcases List.mem_map.mp hm with ⟨t, ht, heq⟩
    subst heq
    rcases aliveSrc_markApply ha with ⟨he, halive, _⟩
    rw [he]
    exact hP.aliveRefW t ht halive
  · intro src hm href
    rw [markSignalled_sources] at hm
    rcases List.mem_map.mp hm with ⟨t, ht, heq⟩
    subst heq
    rw [markApply_started]
    exact hP.refStarted t ht (by rw [markApply_handle] at href; exact href)

theorem opInitCtx_inv {s : PState} (hI : PInv s) : PInv (opInitCtx s) := by
  unfold opInitCtx
  split
  · exact hI
  · apply effectRun_inv
    have hP := hI.toPre
    exact ⟨fun _ => rfl, hP.bufPos, hP.handles, hP.aliveRefW, hP.refStarted,
      hP.pausedNonneg, hP.startLe, hP.curNonneg, hP.durNonneg⟩

theorem opSetPlaying_inv (b : Bool) {s : PState} (hI : PInv s) :
    PInv (opSetPlaying b s) := by
  unfold opSetPlaying
  split
  · exact hI
  · apply effectRun_inv
    have hP := hI.toPre
    exact ⟨hP.ctxOfBuf, hP.bufPos, hP.handles, hP.aliveRefW, hP.refStarted,
      hP.pausedNonneg, hP.startLe, hP.curNonneg, hP.durNonneg⟩

theorem opLoadPlay_inv (d : Rat) {s : PState} (hI : PInv s) (hd : 0 < d)
    (hc : s.hasCtx = true) : PInv (opLoadPlay d s) := by
  unfold opLoadPlay
  split
  · exact hI
  · apply effectRun_inv
    have hP := hI.toPre
    refine ⟨fun _ => hc, ?_, hP.handles, hP.aliveRefW, hP.refStarted,
      hP.pausedNonneg, hP.startLe, hP.curNonneg, le_of_lt hd⟩
    intro e he
    have : some d = some e := he
    rw [← Option.some.injEq d e |>.mp this]
    exact hd

theorem opClose_inv {s : PState} (hI : PInv s) : PInv (opClose s) := by
  unfold opClose
  split
  · exact hI
  · apply effectRun_inv
    have hP := hI.toPre
    dsimp only [durationEffect]
    exact ⟨fun hcon => absurd hcon (by simp), fun e he => absurd he (by simp),
      hP.handles, hP.aliveRefW, hP.refStarted, le_refl 0, hP.startLe,
      le_refl 0, le_refl 0⟩

theorem opAdvance_inv (d : Rat) {s : PState} (hI : PInv s) (hd : 0 ≤ d) :
    PInv (opAdvance d s) := by
  refine ⟨hI.ctxOfBuf, hI.bufPos, hI.handles, hI.aliveRef, hI.playingAlive,
    hI.refLink, hI.pausedNonneg, ?_, hI.curNonneg, hI.durNonneg⟩
  show s.startTime ≤ s.now + d
  have := hI.startLe
  linarith

theorem opSeekStart_inv {s : PState} (hI : PInv s) : PInv (opSeekStart s) := by
  unfold opSeekStart
  split
  · exact hI
  · apply effectRun_inv
    have hP := hI.toPre
    exact ⟨hP.ctxOfBuf, hP.bufPos, hP.handles, hP.aliveRefW, hP.refStarted,
      hP.pausedNonneg, hP.startLe, hP.curNonneg, hP.durNonneg⟩

theorem opSeekChange_inv (t : Rat) {s : PState} (hI : PInv s) :
    PInv (opSeekChange t s) := by
  refine ⟨hI.ctxOfBuf, hI.bufPos, hI.handles, hI.aliveRef, hI.playingAlive,
    hI.refLink, hI.pausedNonneg, hI.startLe, ?_, hI.durNonneg⟩
  show (0 : Rat) ≤ max 0 (min t (sliderMax s))
  exact le_max_left 0 _

theorem opTick_inv {s : PState} (hI : PInv s) : PInv (opTick s) := by
  unfold opTick
  split
  · cases hd : s.isDragging with
    | true =>
        rw [if_pos rfl]
        exact ⟨hI.ctxOfBuf, hI.bufPos, hI.handles, hI.aliveRef,
          hI.playingAlive, hI.refLink, hI.pausedNonneg, hI.startLe,
          hI.curNonneg, hI.durNonneg⟩
    | false =>
        rw [if_neg (by simp)]
        refine ⟨hI.ctxOfBuf, hI.bufPos, hI.handles, hI.aliveRef,
          hI.playingAlive, hI.refLink, hI.pausedNonneg, hI.startLe, ?_,
          hI.durNonneg⟩
        show (0 : Rat) ≤ min (s.now - s.startTime) (s.buffer.getD 0)
        apply le_min
        · have := hI.startLe
          linarith
        · cases hb : s.buffer with
          | none => simp
          | some e =>
              simp only [Option.getD_some]
              exact le_of_lt (hI.bufPos e hb)
  · exact hI

theorem stopRef_preinv {s : PState} (hP : PreInv s) : PreInv (stopRef s) := by
  refine ⟨hP.ctxOfBuf, hP.bufPos, ?_, ?_, ?_, hP.pausedNonneg, hP.startLe,
    hP.curNonneg, hP.durNonneg⟩
  · show (stopList s.sourceRef s.sources).map _ = _
    rw [map_handle_stopList]
    exact hP.handles
  · intro src hm ha
    exact absurd (no_alive_stopList hP.aliveRefW src hm) (by simp [ha])
  · intro src hm href
    rcases List.mem_map.mp hm with ⟨t, ht, heq⟩
    have hh : t.handle = src.handle := by rw [← heq, stopApply_handle]
    have hst : src.started = t.started := by rw [← heq, stopApply_started]
    rw [hst]
    exact hP.refStarted t ht (by rw [hh]; exact href)

theorem stopRef_noalive {s : PState}
    (hW : ∀ src ∈ s.sources, aliveSrc src = true → s.sourceRef = some src.handle) :
    ∀ src ∈ (stopRef s).sources, aliveSrc src = false :=
  fun src hm => no_alive_stopList hW src hm

theorem restart_inv {t : PState} (hP : PreInv t)
    (hna : ∀ src ∈ t.sources, aliveSrc src = false)
    (hb : t.buffer.isSome = true) (hc : t.hasCtx = true)
    (hp : t.isPlaying = true) :
    PInv { startNewSource t t.pausedAt with startTime := t.now - t.pausedAt } := by
  have hlt : ∀ u ∈ t.sources, u.handle < t.nextHandle :=
    handle_lt_of_handles hP.handles
  have hne : ∀ u ∈ t.sources, u.handle ≠ t.nextHandle :=
    fun u hu => Nat.ne_of_lt (hlt u hu)
  have hsrcs : (startNewSource t t.pausedAt).sources =
      t.sources ++
        [⟨t.nextHandle, t.pausedAt, t.now, t.buffer.getD 0, true, false,
          false⟩] := startNewSource_sources t t.pausedAt hne
  refine ⟨?_, ?_, ?_, ?_, ?_, ?_, ?_, ?_, ?_, ?_⟩
  · exact fun _ => hc
  · exact hP.bufPos
  · show (startNewSource t t.pausedAt).sources.map _ =
      List.range (t.nextHandle + 1)
    rw [hsrcs, List.map_append, hP.handles, List.range_succ]
    rfl
  · intro src hm ha
    rw [hsrcs] at hm
    rcases List.mem_append.mp hm with hmem | hmem
    · exact absurd (hna src hmem) (by simp [ha])
    · rcases List.mem_singleton.mp hmem with rfl
      exact ⟨rfl, hp, hb⟩
  · intro _ _
    refine ⟨⟨t.nextHandle, t.pausedAt, t.now, t.buffer.getD 0, true, false,
        false⟩, ?_, rfl, by simp [aliveSrc]⟩
    rw [hsrcs]; exact List.mem_append_right _ (List.mem_singleton.mpr rfl)
  · intro src hm href
    rw [hsrcs] at hm
    have hh : src.handle = t.nextHandle := by
      have : some t.nextHandle = some src.handle := href
      exact (Option.some.injEq _ _ ▸ this).symm
    rcases List.mem_append.mp hm with hmem | hmem
    · exact absurd hh (hne src hmem)
    · rcases List.mem_singleton.mp hmem with rfl
      exact ⟨rfl, fun _ => rfl⟩
  · exact hP.pausedNonneg
  · show t.now - t.pausedAt ≤ t.now
    have := hP.pausedNonneg
    linarith
  · exact hP.curNonneg
  · exact hP.durNonneg

theorem opSeekEnd_inv {s : PState} (hI : PInv s) : PInv (opSeekEnd s) := by
  unfold opSeekEnd
  by_cases hg : (s.buffer.isSome && s.hasCtx) = true
  · rw [if_pos hg]
    rcases Bool.and_eq_true .. |>.mp hg with ⟨hb, hc⟩
    have hs1 : PInv { s with pausedAt := s.currentTime } :=
      ⟨hI.ctxOfBuf, hI.bufPos, hI.handles, hI.aliveRef, hI.playingAlive,
        hI.refLink, hI.curNonneg, hI.startLe, hI.curNonneg, hI.durNonneg⟩
    dsimp only
    by_cases hps : (s.isPlaying && s.sourceRef.isSome) = true
    · rw [if_pos hps]
      rcases Bool.and_eq_true .. |>.mp hps with ⟨hp, _⟩
      have hs2 : PInv { startNewSource (stopRef { s with
          pausedAt := s.currentTime }) s.currentTime with
            startTime := s.now - s.currentTime } := by
        have hPre : PreInv (stopRef { s with pausedAt := s.currentTime }) :=
          stopRef_preinv hs1.toPre
        have hna := stopRef_noalive
          (s := { s with pausedAt := s.currentTime }) hs1.toPre.aliveRefW
        exact restart_inv hPre hna hb hc hp
      split
      · apply effectRun_inv
        have hP := hs2.toPre
        exact ⟨hP.ctxOfBuf, hP.bufPos, hP.handles, hP.aliveRefW,
          hP.refStarted, hP.pausedNonneg, hP.startLe, hP.curNonneg,
          hP.durNonneg⟩
      · exact hs2
    · rw [if_neg hps]
      split
      · apply effectRun_inv
        have hP := hs1.toPre
        exact ⟨hP.ctxOfBuf, hP.bufPos, hP.handles, hP.aliveRefW,
          hP.refStarted, hP.pausedNonneg, hP.startLe, hP.curNonneg,
          hP.durNonneg⟩
      · exact hs1
  · rw [if_neg hg]
    exact hI

theorem opDeliver_inv (h : Nat) {s : PState} (hI : PInv s) :
    PInv (opDeliver h s) := by
  unfold opDeliver
  cases hf : s.sources.find? (fun src => src.handle = h) with
  | none => exact hI
  | some src =>
      dsimp only
      have hmem : src ∈ s.sources := List.mem_of_find?_eq_some hf
      have hsh : src.handle = h := by
        have := List.find?_some hf
        exact of_decide_eq_true this
      by_cases hcond : src.started = true ∧ src.signalled = false ∧
          (src.stopped = true ∨
            src.startedAt + (src.capDur - src.startOffset) ≤ s.now)
      · rw [if_pos hcond]
        unfold onEndHandler
        by_cases hgd : src.capDur - 1/10 ≤
            (markSignalled h s).now - (markSignalled h s).startTime
        · rw [if_pos hgd]
          apply effectRun_inv
          have hP := markSignalled_preinv (h := h) hI.toPre
          exact ⟨hP.ctxOfBuf, hP.bufPos, hP.handles, hP.aliveRefW,
            hP.refStarted, le_refl 0, hP.startLe, le_refl 0, hP.durNonneg⟩
        · rw [if_neg hgd]
          have hP := markSignalled_preinv (h := h) hI.toPre
          refine ⟨hI.ctxOfBuf, hI.bufPos, hP.handles, ?_, ?_, ?_,
            hI.pausedNonneg, hI.startLe, hI.curNonneg, hI.durNonneg⟩
          · intro src' hm' ha'
            rw [markSignalled_sources] at hm'
            rcases List.mem_map.mp hm' with ⟨u, hu, heq⟩
            subst heq
            rcases aliveSrc_markApply ha' with ⟨he, halive, _⟩
            rw [he]
            exact hI.aliveRef u hu halive
          · intro hp hbuf
            rcases hI.playingAlive hp hbuf with ⟨σ, hσm, hσr, hσa⟩
            by_cases hσh : σ.handle = h
            · exfalso
              have hσsrc : σ = src :=
                mem_unique_handle hI.handles hσm hmem (hσh.trans hsh.symm)
              have hnotstop : σ.stopped = false := by
                rcases Bool.and_eq_true .. |>.mp hσa with ⟨h1, h2⟩
                rcases Bool.and_eq_true .. |>.mp h1 with ⟨_, h3⟩
                simpa using h3
              have hnat : src.startedAt + (src.capDur - src.startOffset) ≤
                  s.now := by
                rcases hcond.2.2 with hstop | hnat
                · rw [hσsrc] at hnotstop
                  rw [hstop] at hnotstop
                  exact absurd hnotstop (by simp)
                · exact hnat
              have hlink := (hI.refLink σ hσm hσr).2 hσa
              rw [hσsrc] at hlink
              apply hgd
              show src.capDur - 1/10 ≤ s.now - s.startTime
              rw [hlink]
              have h10 : (0 : Rat) < 1/10 := by norm_num
              linarith
            · refine ⟨σ, ?_, hσr, hσa⟩
              rw [markSignalled_sources]
              exact List.mem_map.mpr ⟨σ, hσm, markApply_of_ne hσh⟩
          · intro src' hm' href'
            rw [markSignalled_sources] at hm'
            rcases List.mem_map.mp hm' with ⟨u, hu, heq⟩
            subst heq
            have href2 : s.sourceRef = some u.handle := by
              rw [markApply_handle] at href'
              exact href'
            constructor
            · rw [markApply_started]
              exact (hI.refLink u hu href2).1
            · intro ha'
              rcases aliveSrc_markApply ha' with ⟨he, halive, _⟩
              rw [he]
              exact (hI.refLink u hu href2).2 halive
      · rw [if_neg hcond]
        exact hI

theorem initState_inv : PInv initState := by
  refine ⟨?_, ?_, rfl, ?_, ?_, ?_, le_refl 0, le_refl 0, le_refl 0, le_refl 0⟩
  · intro hcon
    exact absurd hcon (by simp [initState])
  · intro e he
    exact absurd he (by simp [initState])
  · intro src hm
    exact absurd hm (List.not_mem_nil src)
  · intro hcon
    exact absurd hcon (by simp [initState])
  · intro src hm
    exact absurd hm (List.not_mem_nil src)

/-- Every reachable state satisfies the player invariant. -/
theorem reach_inv {s : PState} (hR : Reach s) : PInv s := by
  induction hR with
  | init => exact initState_inv
  | initCtx _ ih => exact opInitCtx_inv ih
  | setPlaying b _ ih => exact opSetPlaying_inv b ih
  | loadPlay d _ hd hc ih => exact opLoadPlay_inv d ih hd hc
  | close _ ih => exact opClose_inv ih
  | advance d _ hd ih => exact opAdvance_inv d ih hd
  | tick _ ih => exact opTick_inv ih
  | deliver h _ ih => exact opDeliver_inv h ih
  | seekStart _ ih => exact opSeekStart_inv ih
  | seekChange t _ ih => exact opSeekChange_inv t ih
  | seekEnd _ ih => exact opSeekEnd_inv ih

theorem countP_alive_le_one (l : List Source) (r : Option Nat)
    (hnd : (l.map (fun src => src.handle)).Nodup)
    (halr : ∀ src ∈ l, aliveSrc src = true → r = some src.handle) :
    l.countP (fun src => aliveSrc src) ≤ 1 := by
  induction l with
  | nil => simp
  | cons a l ih =>
      have hnd2 : a.handle ∉ l.map (fun src => src.handle) ∧
          (l.map (fun src => src.handle)).Nodup := by
        rw [List.map_cons, List.nodup_cons] at hnd
        exact hnd
      rw [List.countP_cons]
      by_cases ha : aliveSrc a = true
      · have htail : ∀ b ∈ l, aliveSrc b = false := by
          intro b hb
          by_contra hcon
          rw [Bool.not_eq_false] at hcon
          have h1 := halr a (List.mem_cons_self a l) ha
          have h2 := halr b (List.mem_cons_of_mem a hb) hcon
          have hab : a.handle = b.handle := by
            rw [h1] at h2
            exact Option.some.inj h2
          exact hnd2.1 (hab ▸ List.mem_map.mpr ⟨b, hb, rfl⟩)
        have hz : l.countP (fun src => aliveSrc src) = 0 :=
          List.countP_eq_zero.mpr (fun b hb => by simp [htail b hb])
        simp [hz, ha]
      · have hle := ih hnd2.2
          (fun b hb hba => halr b (List.mem_cons_of_mem a hb) hba)
        simp only [ha]
        simpa using hle

/-- At most one Emitter is alive in any reachable state. -/
theorem aliveCount_le_one {s : PState} (hI : PInv s) : aliveCount s ≤ 1 := by
  have hnd : (s.sources.map (fun src => src.handle)).Nodup := by
    rw [hI.handles]; exact List.nodup_range _
  exact countP_alive_le_one s.sources s.sourceRef hnd
    (fun src hm ha => (hI.aliveRef src hm ha).1)

/-! Reduction helpers for the operations under explicit branch conditions. -/

theorem opSetPlaying_false_eq {s : PState} (hp : s.isPlaying = true)
    (hb : s.buffer.isSome = true) (hc : s.hasCtx = true) :
    opSetPlaying false s = pauseBody (cleanupStep { s with isPlaying := false }) := by
  unfold opSetPlaying
  rw [if_neg (by rw [hp]; simp)]
  unfold effectRun playbackEffect
  rw [if_pos (by simp [cleanupStep, hb, hc]), if_neg (by simp [cleanupStep])]

theorem opSetPlaying_true_eq {s : PState} (hp : s.isPlaying = false)
    (hb : s.buffer.isSome = true) (hc : s.hasCtx = true) :
    opSetPlaying true s = playBody (cleanupStep { s with isPlaying := true }) := by
  unfold opSetPlaying
  rw [if_neg (by rw [hp]; simp)]
  unfold effectRun playbackEffect
  rw [if_pos (by simp [cleanupStep, hb, hc]), if_pos (by simp [cleanupStep])]

theorem pauseBody_pausedAt {s : PState} (hd : s.isDragging = false) :
    (pauseBody s).pausedAt = s.now - s.startTime := by
  simp [pauseBody, hd]

theorem find?_append_last {l : List Source} {a : Source} {h : Nat}
    (hne : ∀ x ∈ l, x.handle ≠ h) (ha : a.handle = h) :
    (l ++ [a]).find? (fun src => src.handle = h) = some a := by
  induction l with
  | nil => simp [List.find?, ha]
  | cons b l ih =>
      have hb : (decide (b.handle = h)) = false :=
        decide_eq_false (hne b (List.mem_cons_self b l))
      rw [List.cons_append, List.find?_cons, hb]
      exact ih (fun x hx => hne x (List.mem_cons_of_mem b hx))

theorem refSrcStartOffset_playBody {t : PState}
    (hne : ∀ u ∈ t.sources, u.handle ≠ t.nextHandle) :
    refSrcStartOffset (playBody t) = some t.pausedAt := by
  unfold refSrcStartOffset
  have hsrcs : (playBody t).sources =
      t.sources ++
        [⟨t.nextHandle, t.pausedAt, t.now, t.buffer.getD 0, true, false,
          false⟩] := startNewSource_sources t t.pausedAt hne
  have href : (playBody t).sourceRef = some t.nextHandle := rfl
  rw [href]
  dsimp only
  rw [hsrcs, find?_append_last hne rfl]
  rfl

/-! C1.  The spec claims `0 ≤ offset ≤ duration` after every transition and
that pause clamps the stored offset into `[0, duration]`. The pause branch
(line 235) stores `context.currentTime - startTimeRef` with no clamp, so the
upper bound fails when the pause lands after the clip's natural end time;
the lower bound does hold, and pause stores exactly `now - segmentStartedAt`. -/

/-- C1 counterexample: load a 10-second clip, play from 0, let the clock
reach 11, pause.  The stored offset is 11 > duration = 10, violating
`0 ≤ offset ≤ duration` as well as the claimed clamping. -/
theorem c1_pause_unclamped_counterexample :
    Reach c1state ∧ c1state.duration = 10 ∧ c1state.pausedAt = 11 ∧
      ¬(c1state.pausedAt ≤ c1state.duration) := by
  refine ⟨?_, ?_, ?_, ?_⟩
  · exact Reach.setPlaying false (Reach.advance 11
      (Reach.loadPlay 10 (Reach.initCtx Reach.init) (by norm_num)
        (by norm_num [opInitCtx, effectRun, playbackEffect, cleanupStep,
          stopList, initState]))
      (by norm_num))
  all_goals norm_num [c1state, opSeekEnd, opSeekChange, opSeekStart, opAdvance, opLoadPlay,
      opInitCtx, opSetPlaying, opDeliver, onEndHandler, markSignalled,
      effectRun, playbackEffect, playBody, pauseBody, cleanupStep,
      durationEffect, startNewSource, primStart, primSetRef, primCreate,
      stopRef, stopList, stopApply, initState, sliderClamp, sliderMax,
      loadState, List.find?]

/-- C1 amended: after every transition the offset (`pausedAtRef`, and the
reported position) stays nonnegative, and `pause()` from Playing stores
exactly `now - segmentStartedAt` with no clamping — the upper bound
`offset ≤ duration` is not enforced. -/
theorem c1_amended_offset_lower_bound_and_pause_exact (s : PState)
    (hR : Reach s) :
    (0 ≤ s.pausedAt ∧ 0 ≤ s.currentTime) ∧
    (s.isPlaying = true → s.isDragging = false → s.buffer.isSome = true →
      (opSetPlaying false s).pausedAt = s.now - s.startTime) := by
  have hI := reach_inv hR
  refine ⟨⟨hI.pausedNonneg, hI.curNonneg⟩, fun hp hd hb => ?_⟩
  rw [opSetPlaying_false_eq hp hb (hI.ctxOfBuf hb)]
  exact pauseBody_pausedAt hd

/-- Witness for the amended C1 at the playing 10-second clip. -/
theorem c1_amended_witness :
    ((0 ≤ loadState.pausedAt ∧ 0 ≤ loadState.currentTime) ∧
      (loadState.isPlaying = true → loadState.isDragging = false →
        loadState.buffer.isSome = true →
        (opSetPlaying false loadState).pausedAt =
          loadState.now - loadState.startTime)) ∧
    (opSetPlaying false loadState).pausedAt = 0 := by
  constructor
  · exact c1_amended_offset_lower_bound_and_pause_exact loadState
      (Reach.loadPlay 10 (Reach.initCtx Reach.init) (by norm_num)
        (by norm_num [opInitCtx, effectRun, playbackEffect, cleanupStep,
          stopList, initState]))
  · norm_num [opSeekEnd, opSeekChange, opSeekStart, opAdvance, opLoadPlay,
      opInitCtx, opSetPlaying, opDeliver, onEndHandler, markSignalled,
      effectRun, playbackEffect, playBody, pauseBody, cleanupStep,
      durationEffect, startNewSource, primStart, primSetRef, primCreate,
      stopRef, stopList, stopApply, initState, sliderClamp, sliderMax,
      loadState, List.find?]

/-! C5.  Natural completion: the `onended` handler (lines 205-212) resets
`pausedAtRef` to 0 and calls `onTogglePlay()`, but the pause branch of the
playback effect then re-runs for the new `isPlaying = false` and overwrites
`pausedAtRef` with `context.currentTime - startTimeRef ≈ duration`
(line 235).  The stored offset after a natural completion is the clip
duration, not 0 — replaying resumes at the end of the clip. -/

/-- C5 failing input: 10-second clip, play from 0, natural completion at
clock 10.  The engine does stop (not playing, no node, tracker stopped,
displayed time 0) but the stored offset ends at 10, not 0. -/
theorem c5_completion_leaves_offset_at_duration :
    c5state.isPlaying = false ∧ c5state.sourceRef = none ∧
      c5state.anim = false ∧ c5state.currentTime = 0 ∧
      c5state.duration = 10 ∧ c5state.pausedAt = 10 ∧
      ¬(c5state.pausedAt = 0) := by
  norm_num [c5state, opSeekEnd, opSeekChange, opSeekStart, opAdvance, opLoadPlay,
      opInitCtx, opSetPlaying, opDeliver, onEndHandler, markSignalled,
      effectRun, playbackEffect, playBody, pauseBody, cleanupStep,
      durationEffect, startNewSource, primStart, primSetRef, primCreate,
      stopRef, stopList, stopApply, initState, sliderClamp, sliderMax,
      loadState, List.find?]

/-! C7.  `handleSeekEnd` while paused stores the slider-clamped target into
`pausedAtRef` (line 262), but `setIsDragging(false)` re-runs the playback
effect (dependency list, line 247) whose pause branch overwrites
`pausedAtRef` with `context.currentTime - startTimeRef` (line 235), throwing
the seek away.  The comment on line 233 ("dragging handles its own time")
shows the overwrite is unintended. -/

/-- C7 failing input: pause a 10-second clip at elapsed 2, scrub to 12.
The slider clamps the intent to 10 (`max={duration || 100}`) and the commit
stores 10, but the drag-end effect re-run overwrites the offset with 2.
No error is raised and no node runs, but the offset is 2, not
`clamp(12, 0, 10) = 10`. -/
theorem c7_seek_clobbered_while_paused :
    Reach c7state ∧ c7state.currentTime = 10 ∧ c7state.sourceRef = none ∧
      c7state.duration = 10 ∧ c7state.pausedAt = 2 ∧
      ¬(c7state.pausedAt = 10) := by
  refine ⟨?_, ?_, ?_, ?_, ?_, ?_⟩
  · exact Reach.seekEnd (Reach.seekChange 12 (Reach.seekStart
      (Reach.setPlaying false (Reach.advance 2
        (Reach.loadPlay 10 (Reach.initCtx Reach.init) (by norm_num)
          (by norm_num [opInitCtx, effectRun, playbackEffect, cleanupStep,
            stopList, initState]))
        (by norm_num)))))
  all_goals norm_num [c7state, opSeekEnd, opSeekChange, opSeekStart, opAdvance, opLoadPlay,
      opInitCtx, opSetPlaying, opDeliver, onEndHandler, markSignalled,
      effectRun, playbackEffect, playBody, pauseBody, cleanupStep,
      durationEffect, startNewSource, primStart, primSetRef, primCreate,
      stopRef, stopList, stopApply, initState, sliderClamp, sliderMax,
      loadState, List.find?]

/-! C8.  One tick of `updateProgress` (lines 215-223). -/

/-- C8: on a tracker tick, when no scrub is in progress the reported
position is `min(now - segmentStartedAt, duration)`; while a scrub is in
progress the tick leaves the caller-driven position untouched. -/
theorem c8_tick_reports_min_or_keeps_scrub (s : PState) (d : Rat)
    (ha : s.anim = true) (hb : s.buffer = some d) :
    (s.isDragging = false →
      (opTick s).currentTime = min (s.now - s.startTime) d) ∧
    (s.isDragging = true → (opTick s).currentTime = s.currentTime) := by
  unfold opTick
  rw [if_pos ha]
  constructor
  · intro hd
    rw [if_neg (by simp [hd])]
    show min (s.now - s.startTime) (s.buffer.getD 0) = min (s.now - s.startTime) d
    rw [hb]
    rfl
  · intro hd
    rw [if_pos hd]

/-- Witness for C8 at the playing 10-second clip two seconds in. -/
theorem c8_tick_witness :
    ((opAdvance 2 loadState).isDragging = false →
      (opTick (opAdvance 2 loadState)).currentTime =
        min ((opAdvance 2 loadState).now - (opAdvance 2 loadState).startTime)
          10) ∧
    ((opAdvance 2 loadState).isDragging = true →
      (opTick (opAdvance 2 loadState)).currentTime =
        (opAdvance 2 loadState).currentTime) :=
  c8_tick_reports_min_or_keeps_scrub (opAdvance 2 loadState) 10
    (by norm_num [opSeekEnd, opSeekChange, opSeekStart, opAdvance, opLoadPlay,
      opInitCtx, opSetPlaying, opDeliver, onEndHandler, markSignalled,
      effectRun, playbackEffect, playBody, pauseBody, cleanupStep,
      durationEffect, startNewSource, primStart, primSetRef, primCreate,
      stopRef, stopList, stopApply, initState, sliderClamp, sliderMax,
      loadState, List.find?]) (by norm_num [opSeekEnd, opSeekChange, opSeekStart, opAdvance, opLoadPlay,
      opInitCtx, opSetPlaying, opDeliver, onEndHandler, markSignalled,
      effectRun, playbackEffect, playBody, pauseBody, cleanupStep,
      durationEffect, startNewSource, primStart, primSetRef, primCreate,
      stopRef, stopList, stopApply, initState, sliderClamp, sliderMax,
      loadState, List.find?])

/-! C9.  `pause()`/`play()` in the wrong state are no-ops: a `set` of
`isPlaying` to its current value does not re-render and the playback effect
does not re-run, so the entire state is unchanged. -/

/-- C9: pausing while not playing and playing while already playing leave
the whole player state (hence state and offset) unchanged. -/
theorem c9_pause_play_noop (s : PState) :
    (s.isPlaying = false → opSetPlaying false s = s) ∧
    (s.isPlaying = true → opSetPlaying true s = s) := by
  constructor <;> intro hp <;> unfold opSetPlaying <;> rw [if_pos hp]

/-- Witness for C9: pausing the fresh player and re-playing the playing
player change nothing. -/
theorem c9_noop_witness :
    (initState.isPlaying = false → opSetPlaying false initState = initState) ∧
    (initState.isPlaying = true → opSetPlaying true initState = initState) :=
  c9_pause_play_noop initState

/-! C10.  Toggling play with no clip or no context: the playback effect's
guard (line 189) returns before doing anything. -/

/-- C10: with `buffer` or `context` missing, driving `isPlaying` to any
value creates no node and leaves the stored offset, the segment start time,
the reported position, and the node reference unchanged. -/
theorem c10_toggle_without_clip_noop (s : PState) (b : Bool)
    (hg : s.buffer = none ∨ s.hasCtx = false) :
    (opSetPlaying b s).pausedAt = s.pausedAt ∧
    (opSetPlaying b s).startTime = s.startTime ∧
    (opSetPlaying b s).currentTime = s.currentTime ∧
    (opSetPlaying b s).sourceRef = s.sourceRef ∧
    (opSetPlaying b s).nextHandle = s.nextHandle ∧
    (opSetPlaying b s).sources.length = s.sources.length := by
  unfold opSetPlaying
  split
  · exact ⟨rfl, rfl, rfl, rfl, rfl, rfl⟩
  · unfold effectRun playbackEffect
    rw [if_neg (by rcases hg with h | h <;> simp [cleanupStep, h])]
    exact ⟨rfl, rfl, rfl, rfl, rfl, by simp [cleanupStep, stopList]⟩

/-- Witness for C10: toggling play on the fresh, clipless player. -/
theorem c10_toggle_witness :
    (opSetPlaying true initState).pausedAt = initState.pausedAt ∧
    (opSetPlaying true initState).startTime = initState.startTime ∧
    (opSetPlaying true initState).currentTime = initState.currentTime ∧
    (opSetPlaying true initState).sourceRef = initState.sourceRef ∧
    (opSetPlaying true initState).nextHandle = initState.nextHandle ∧
    (opSetPlaying true initState).sources.length =
      initState.sources.length :=
  c10_toggle_without_clip_noop initState true (Or.inl rfl)

/-! C3.  The `onended` handlers (lines 205-212, 277-283) carry no handle
check: they compare the *current* segment's elapsed time against
`buffer.duration - 0.1`.  A stale completion from a stopped, replaced node
is therefore honored whenever the current elapsed time happens to be within
0.1 of the end — e.g. right after seeking close to the end. -/

/-- C3 counterexample: play a 10-second clip, seek to 9.95 while playing
(replacing the original Emitter, handle 0, by handle 3), then deliver the
completion signal of the original Emitter.  The engine leaves Playing and
runs its end-of-clip handling off the stale signal. -/
theorem c3_stale_completion_honored_counterexample :
    Reach c3pre ∧ c3pre.isPlaying = true ∧ c3pre.sourceRef = some 3 ∧
      ((c3pre.sources.find? (fun src => src.handle = 0)).map
        (fun src => (src.stopped, src.signalled))) = some (true, false) ∧
      (opDeliver 0 c3pre).isPlaying = false ∧
      (opDeliver 0 c3pre).sourceRef = none := by
  refine ⟨?_, ?_, ?_, ?_, ?_, ?_⟩
  · exact Reach.seekEnd (Reach.seekChange (199/20) (Reach.seekStart
      (Reach.advance 1
        (Reach.loadPlay 10 (Reach.initCtx Reach.init) (by norm_num)
          (by norm_num [opInitCtx, effectRun, playbackEffect, cleanupStep,
            stopList, initState]))
        (by norm_num))))
  all_goals norm_num [c3pre, opSeekEnd, opSeekChange, opSeekStart, opAdvance,
    opLoadPlay, opInitCtx, opSetPlaying, opDeliver, onEndHandler,
    markSignalled, effectRun, playbackEffect, playBody, pauseBody,
    cleanupStep, durationEffect, startNewSource, primStart, primSetRef,
    primCreate, stopRef, stopList, stopApply, initState, sliderClamp,
    sliderMax, loadState, List.find?]

/-- C3 amended: a completion signal of a stopped (replaced) node is ignored
exactly when the current segment's elapsed time `now - startTimeRef` is
below `duration - 0.1`: the code discriminates natural ends by elapsed
time, not by Emitter handle, so under that guard a stale signal leaves the
playing state, the offset, the node reference, the segment start and the
reported position unchanged. -/
theorem c3_amended_stale_ignored_under_guard (s : PState) (src : Source)
    (h : Nat) (hf : s.sources.find? (fun x => x.handle = h) = some src)
    (hstop : src.stopped = true) (hsig : src.signalled = false)
    (hguard : s.now - s.startTime < src.capDur - 1/10) :
    (opDeliver h s).isPlaying = s.isPlaying ∧
    (opDeliver h s).pausedAt = s.pausedAt ∧
    (opDeliver h s).sourceRef = s.sourceRef ∧
    (opDeliver h s).startTime = s.startTime ∧
    (opDeliver h s).currentTime = s.currentTime := by
  unfold opDeliver
  rw [hf]
  dsimp only
  by_cases hst : src.started = true
  · rw [if_pos ⟨hst, hsig, Or.inl hstop⟩]
    unfold onEndHandler
    rw [if_neg (show ¬(src.capDur - 1/10 ≤
      (markSignalled h s).now - (markSignalled h s).startTime) from
        not_le.mpr hguard)]
    exact ⟨rfl, rfl, rfl, rfl, rfl⟩
  · rw [if_neg (fun hcon => hst hcon.1)]
    exact ⟨rfl, rfl, rfl, rfl, rfl⟩

/-- Witness for the amended C3: after seeking to 2 seconds, the stale
completion of the original Emitter (handle 0) is delivered and ignored. -/
theorem c3_amended_witness :
    (opDeliver 0 c3amendpre).isPlaying = c3amendpre.isPlaying ∧
    (opDeliver 0 c3amendpre).pausedAt = c3amendpre.pausedAt ∧
    (opDeliver 0 c3amendpre).sourceRef = c3amendpre.sourceRef ∧
    (opDeliver 0 c3amendpre).startTime = c3amendpre.startTime ∧
    (opDeliver 0 c3amendpre).currentTime = c3amendpre.currentTime := by
  apply c3_amended_stale_ignored_under_guard c3amendpre
    ⟨0, 0, 0, 10, true, true, false⟩ 0
  all_goals norm_num [c3amendpre, opSeekEnd, opSeekChange, opSeekStart,
    opAdvance, opLoadPlay, opInitCtx, effectRun, playbackEffect, playBody,
    pauseBody, cleanupStep, durationEffect, startNewSource, primStart,
    primSetRef, primCreate, stopRef, stopList, stopApply, initState,
    sliderClamp, sliderMax, loadState, List.find?]

/-! C2.  The active-Emitter-iff-Playing invariant. -/

/-- C2: in every reachable state, a live node sits in `sourceRef` exactly
when the player is Playing (`isPlaying` with a clip loaded). -/
theorem c2_active_emitter_iff_playing (s : PState) (hR : Reach s) :
    activeEmitterB s = true ↔
      (s.isPlaying = true ∧ s.buffer.isSome = true) := by
  have hI := reach_inv hR
  unfold activeEmitterB
  constructor
  · intro ha
    rcases List.any_eq_true.mp ha with ⟨src, hm, hp⟩
    rcases Bool.and_eq_true .. |>.mp hp with ⟨_, halive⟩
    exact ⟨(hI.aliveRef src hm halive).2.1, (hI.aliveRef src hm halive).2.2⟩
  · rintro ⟨hp, hb⟩
    rcases hI.playingAlive hp hb with ⟨src, hm, href, halive⟩
    apply List.any_eq_true.mpr
    refine ⟨src, hm, ?_⟩
    rw [href, halive]
    simp

/-- Witness for C2 at the playing 10-second clip: the Playing configuration
has an active Emitter. -/
theorem c2_active_emitter_witness :
    (activeEmitterB loadState = true ↔
      (loadState.isPlaying = true ∧ loadState.buffer.isSome = true)) ∧
    activeEmitterB loadState = true := by
  constructor
  · exact c2_active_emitter_iff_playing loadState
      (Reach.loadPlay 10 (Reach.initCtx Reach.init) (by norm_num)
        (by norm_num [opInitCtx, effectRun, playbackEffect, cleanupStep,
          stopList, initState]))
  · norm_num [activeEmitterB, aliveSrc, opLoadPlay, opInitCtx, effectRun,
      playbackEffect, playBody, pauseBody, cleanupStep, durationEffect,
      startNewSource, primStart, primSetRef, primCreate, stopRef, stopList,
      stopApply, initState, loadState, List.any]

/-! C4.  At most one Emitter alive at every observable instant, including
every micro-step of the seek-while-playing stop-old-then-start-new
handoff. -/

theorem opSeekEnd_eq_seekK {s : PState} (hb : s.buffer.isSome = true)
    (hc : s.hasCtx = true) (hp : s.isPlaying = true)
    (hr : s.sourceRef.isSome = true) (hd : s.isDragging = true) :
    opSeekEnd s = seekK s := by
  unfold opSeekEnd seekK seekJ seekI seekH seekG seekF seekE seekD seekC
    seekB seekA effectRun playbackEffect playBody startNewSource cleanupStep
    stopRef primStart primSetRef primCreate
  simp [hb, hc, hp, hr, hd]

theorem seekEndMicro_alive {s : PState} (hI : PInv s)
    (hp : s.isPlaying = true) (hr : s.sourceRef.isSome = true) :
    ∀ u ∈ seekEndMicro s, aliveCount u ≤ 1 := by
  have hnd0 : (s.sources.map (fun src => src.handle)).Nodup := by
    rw [hI.handles]; exact List.nodup_range _
  have hlt0 : ∀ t ∈ s.sources, t.handle < s.nextHandle :=
    handle_lt_of_handles hI.handles
  have halr0 : ∀ src ∈ s.sources, aliveSrc src = true →
      s.sourceRef = some src.handle :=
    fun src hm ha => (hI.aliveRef src hm ha).1
  -- after stopping the referenced node nothing is alive
  have hnoB : ∀ t ∈ (seekB s).sources, aliveSrc t = false := by
    intro t ht
    exact no_alive_stopList halr0 t ht
  have hmapB : (seekB s).sources.map (fun src => src.handle) =
      List.range s.nextHandle := by
    show (stopList s.sourceRef s.sources).map _ = _
    rw [map_handle_stopList]
    exact hI.handles
  have hneB : ∀ t ∈ (seekB s).sources, t.handle ≠ s.nextHandle := by
    intro t ht
    have : t.handle ∈ (seekB s).sources.map (fun src => src.handle) :=
      List.mem_map.mpr ⟨t, ht, rfl⟩
    rw [hmapB, List.mem_range] at this
    exact Nat.ne_of_lt this
  -- the started replacement node list
  have hsrcsE : (seekE s).sources =
      (seekB s).sources ++
        [⟨s.nextHandle, s.currentTime, s.now, s.buffer.getD 0, true, false,
          false⟩] := startNewSource_sources (seekB s) s.currentTime hneB
  have hcountB : (seekB s).sources.countP (fun src => aliveSrc src) = 0 :=
    List.countP_eq_zero.mpr (fun t ht => by simp [hnoB t ht])
  have hcountE : (seekE s).sources.countP (fun src => aliveSrc src) = 1 := by
    rw [hsrcsE, List.countP_append, hcountB]
    simp [aliveSrc]
  -- cleanup of the drag-end effect re-run stops the replacement node
  have hnoG : ∀ t ∈ (seekG s).sources, aliveSrc t = false := by
    intro t ht
    apply no_alive_stopList (r := some s.nextHandle)
      (l := (seekE s).sources) ?_ t
    · exact ht
    · intro w hw haw
      rw [hsrcsE] at hw
      rcases List.mem_append.mp hw with hw1 | hw1
      · exact absurd (hnoB w hw1) (by simp [haw])
      · rcases List.mem_singleton.mp hw1 with rfl
        rfl
  have hcountG : (seekG s).sources.countP (fun src => aliveSrc src) = 0 :=
    List.countP_eq_zero.mpr (fun t ht => by simp [hnoG t ht])
  have hmapG : (seekG s).sources.map (fun src => src.handle) =
      List.range (s.nextHandle + 1) := by
    show (stopList (seekF s).sourceRef (seekE s).sources).map _ = _
    rw [map_handle_stopList, hsrcsE, List.map_append, hmapB, List.range_succ]
    rfl
  have hneG : ∀ t ∈ (seekG s).sources, t.handle ≠ s.nextHandle + 1 := by
    intro t ht
    have : t.handle ∈ (seekG s).sources.map (fun src => src.handle) :=
      List.mem_map.mpr ⟨t, ht, rfl⟩
    rw [hmapG, List.mem_range] at this
    exact Nat.ne_of_lt this
  have hsrcsJ : (seekJ s).sources =
      (seekG s).sources ++
        [⟨s.nextHandle + 1, (seekG s).pausedAt, (seekG s).now,
          (seekG s).buffer.getD 0, true, false, false⟩] :=
    startNewSource_sources (seekG s) (seekG s).pausedAt hneG
  have hcountJ : (seekJ s).sources.countP (fun src => aliveSrc src) = 1 := by
    rw [hsrcsJ, List.countP_append, hcountG]
    simp [aliveSrc]
  intro u hu
  simp only [seekEndMicro, List.mem_cons, List.not_mem_nil, or_false] at hu
  rcases hu with rfl | rfl | rfl | rfl | rfl | rfl | rfl | rfl | rfl | rfl |
    rfl | rfl
  · exact aliveCount_le_one hI
  · exact (aliveCount_le_one hI : aliveCount s ≤ 1)
  · show (seekB s).sources.countP _ ≤ 1
    rw [hcountB]; norm_num
  · show ((seekB s).sources ++ [_]).countP _ ≤ 1
    rw [List.countP_append, hcountB]
    simp [aliveSrc]
  · show ((seekB s).sources ++ [_]).countP _ ≤ 1
    rw [List.countP_append, hcountB]
    simp [aliveSrc]
  · show (seekE s).sources.countP _ ≤ 1
    rw [hcountE]
  · show (seekE s).sources.countP _ ≤ 1
    rw [hcountE]
  · show (seekG s).sources.countP _ ≤ 1
    rw [hcountG]; norm_num
  · show ((seekG s).sources ++ [_]).countP _ ≤ 1
    rw [List.countP_append, hcountG]
    simp [aliveSrc]
  · show ((seekG s).sources ++ [_]).countP _ ≤ 1
    rw [List.countP_append, hcountG]
    simp [aliveSrc]
  · show (seekJ s).sources.countP _ ≤ 1
    rw [hcountJ]
  · show (seekJ s).sources.countP _ ≤ 1
    rw [hcountJ]

/-- C4: in every reachable state at most one Emitter is alive, and during a
seek-while-playing commit the handoff is stop-old-then-start-new: the final
state of the micro-step sequence is exactly the seek result and every
intermediate observable state has at most one alive Emitter (never two, and
audio is never double-triggered). -/
theorem c4_at_most_one_emitter (s : PState) (hR : Reach s) :
    aliveCount s ≤ 1 ∧
    (s.buffer.isSome = true → s.hasCtx = true → s.isPlaying = true →
      s.sourceRef.isSome = true → s.isDragging = true →
      opSeekEnd s = seekK s ∧ ∀ u ∈ seekEndMicro s, aliveCount u ≤ 1) := by
  have hI := reach_inv hR
  exact ⟨aliveCount_le_one hI, fun hb hc hp hr hd =>
    ⟨opSeekEnd_eq_seekK hb hc hp hr hd, seekEndMicro_alive hI hp hr⟩⟩

/-- Witness for C4: a seek commit while playing and dragging the 10-second
clip one second in keeps at most one Emitter alive at every micro-step. -/
theorem c4_witness :
    opSeekEnd (opSeekStart (opAdvance 1 loadState)) =
      seekK (opSeekStart (opAdvance 1 loadState)) ∧
    ∀ u ∈ seekEndMicro (opSeekStart (opAdvance 1 loadState)),
      aliveCount u ≤ 1 :=
  (c4_at_most_one_emitter (opSeekStart (opAdvance 1 loadState))
    (Reach.seekStart (Reach.advance 1
      (Reach.loadPlay 10 (Reach.initCtx Reach.init) (by norm_num)
        (by norm_num [opInitCtx, effectRun, playbackEffect, cleanupStep,
          stopList, initState]))
      (by norm_num)))).2
    (by norm_num [opSeekStart, opAdvance, opLoadPlay, opInitCtx, effectRun,
      playbackEffect, playBody, pauseBody, cleanupStep, durationEffect,
      startNewSource, primStart, primSetRef, primCreate, stopRef, stopList,
      stopApply, initState, loadState])
    (by norm_num [opSeekStart, opAdvance, opLoadPlay, opInitCtx, effectRun,
      playbackEffect, playBody, pauseBody, cleanupStep, durationEffect,
      startNewSource, primStart, primSetRef, primCreate, stopRef, stopList,
      stopApply, initState, loadState])
    (by norm_num [opSeekStart, opAdvance, opLoadPlay, opInitCtx, effectRun,
      playbackEffect, playBody, pauseBody, cleanupStep, durationEffect,
      startNewSource, primStart, primSetRef, primCreate, stopRef, stopList,
      stopApply, initState, loadState])
    (by norm_num [opSeekStart, opAdvance, opLoadPlay, opInitCtx, effectRun,
      playbackEffect, playBody, pauseBody, cleanupStep, durationEffect,
      startNewSource, primStart, primSetRef, primCreate, stopRef, stopList,
      stopApply, initState, loadState])
    (by norm_num [opSeekStart, opAdvance, opLoadPlay, opInitCtx, effectRun,
      playbackEffect, playBody, pauseBody, cleanupStep, durationEffect,
      startNewSource, primStart, primSetRef, primCreate, stopRef, stopList,
      stopApply, initState, loadState])

/-! C6.  Pause/resume round trip. -/

theorem pauseBody_isPlaying (s : PState) :
    (pauseBody s).isPlaying = s.isPlaying := by
  cases hd : s.isDragging <;> simp [pauseBody, hd]

theorem pauseBody_buffer (s : PState) :
    (pauseBody s).buffer = s.buffer := by
  cases hd : s.isDragging <;> simp [pauseBody, hd]

theorem pauseBody_hasCtx (s : PState) :
    (pauseBody s).hasCtx = s.hasCtx := by
  cases hd : s.isDragging <;> simp [pauseBody, hd]

theorem pauseBody_isDragging (s : PState) :
    (pauseBody s).isDragging = s.isDragging := by
  cases hd : s.isDragging <;> simp [pauseBody, hd]

/-- C6: from any reachable paused (or ready) state with a clip of duration
`d`, playing, letting `t` seconds elapse (`0 ≤ t < d`), pausing, waiting any
`u ≥ 0` and playing again starts the new Emitter exactly at the offset
recorded at the pause — which is the old offset advanced by `t`, not zero. -/
theorem c6_resume_at_paused_offset (s : PState) (d t u : Rat) (hR : Reach s)
    (hb : s.buffer = some d) (hc : s.hasCtx = true) (hp : s.isPlaying = false)
    (hdr : s.isDragging = false) (ht0 : 0 ≤ t) (htd : t < d) (hu : 0 ≤ u) :
    refSrcStartOffset (playPausePlay t u s) =
      some ((pausedAfter t s).pausedAt) ∧
    (pausedAfter t s).pausedAt = s.pausedAt + t := by
  have hbs : s.buffer.isSome = true := by rw [hb]; rfl
  -- the first play
  have h1 : opSetPlaying true s =
      playBody (cleanupStep { s with isPlaying := true }) :=
    opSetPlaying_true_eq hp hbs hc
  -- the pause after t
  have h2 : opSetPlaying false (opAdvance t (opSetPlaying true s)) =
      pauseBody (cleanupStep { opAdvance t (opSetPlaying true s) with
        isPlaying := false }) := by
    apply opSetPlaying_false_eq
    · rw [h1]; rfl
    · rw [show (opAdvance t (opSetPlaying true s)).buffer =
        (opSetPlaying true s).buffer from rfl, h1]
      show s.buffer.isSome = true
      exact hbs
    · rw [show (opAdvance t (opSetPlaying true s)).hasCtx =
        (opSetPlaying true s).hasCtx from rfl, h1]
      exact hc
  have hpause : (pausedAfter t s).pausedAt = s.pausedAt + t := by
    show (opSetPlaying false (opAdvance t (opSetPlaying true s))).pausedAt = _
    rw [h2]
    rw [pauseBody_pausedAt (by
      show (opAdvance t (opSetPlaying true s)).isDragging = false
      rw [show (opAdvance t (opSetPlaying true s)).isDragging =
        (opSetPlaying true s).isDragging from rfl, h1]
      exact hdr)]
    rw [h1]
    show (s.now + t) - (s.now - s.pausedAt) = s.pausedAt + t
    ring
  refine ⟨?_, hpause⟩
  -- the resume
  have hRB : Reach (opAdvance u (pausedAfter t s)) := by
    exact Reach.advance u (Reach.setPlaying false (Reach.advance t
      (Reach.setPlaying true hR) ht0)) hu
  have hIB := reach_inv hRB
  have hp2 : (opAdvance u (pausedAfter t s)).isPlaying = false := by
    show (pausedAfter t s).isPlaying = false
    show (opSetPlaying false (opAdvance t (opSetPlaying true s))).isPlaying = _
    rw [h2, pauseBody_isPlaying]
    rfl
  have hb2 : (opAdvance u (pausedAfter t s)).buffer.isSome = true := by
    show (pausedAfter t s).buffer.isSome = true
    show (opSetPlaying false
      (opAdvance t (opSetPlaying true s))).buffer.isSome = _
    rw [h2, pauseBody_buffer]
    rw [show (cleanupStep { opAdvance t (opSetPlaying true s) with
      isPlaying := false }).buffer =
        (opSetPlaying true s).buffer from rfl, h1]
    exact hbs
  have hc2 : (opAdvance u (pausedAfter t s)).hasCtx = true := by
    show (pausedAfter t s).hasCtx = true
    show (opSetPlaying false (opAdvance t (opSetPlaying true s))).hasCtx = _
    rw [h2, pauseBody_hasCtx]
    rw [show (cleanupStep { opAdvance t (opSetPlaying true s) with
      isPlaying := false }).hasCtx =
        (opSetPlaying true s).hasCtx from rfl, h1]
    exact hc
  have h4 : opSetPlaying true (opAdvance u (pausedAfter t s)) =
      playBody (cleanupStep { opAdvance u (pausedAfter t s) with
        isPlaying := true }) :=
    opSetPlaying_true_eq hp2 hb2 hc2
  show refSrcStartOffset
    (opSetPlaying true (opAdvance u (pausedAfter t s))) = _
  rw [h4]
  have hmap : (cleanupStep { opAdvance u (pausedAfter t s) with
      isPlaying := true }).sources.map (fun src => src.handle) =
      List.range (cleanupStep { opAdvance u (pausedAfter t s) with
        isPlaying := true }).nextHandle := by
    show (stopList (opAdvance u (pausedAfter t s)).sourceRef
      (opAdvance u (pausedAfter t s)).sources).map _ =
        List.range (opAdvance u (pausedAfter t s)).nextHandle
    rw [map_handle_stopList]
    exact hIB.handles
  have hne : ∀ src ∈ (cleanupStep { opAdvance u (pausedAfter t s) with
      isPlaying := true }).sources,
      src.handle ≠ (cleanupStep { opAdvance u (pausedAfter t s) with
        isPlaying := true }).nextHandle :=
    fun src hm => Nat.ne_of_lt (handle_lt_of_handles hmap src hm)
  rw [refSrcStartOffset_playBody hne]
  rfl

/-- Witness for C6: pause the 10-second clip, play, pause after 3 seconds,
wait 5 seconds, play again — the new Emitter starts at offset 3, the offset
recorded at the pause. -/
theorem c6_resume_witness :
    (refSrcStartOffset (playPausePlay 3 5 (opSetPlaying false loadState)) =
        some ((pausedAfter 3 (opSetPlaying false loadState)).pausedAt) ∧
      (pausedAfter 3 (opSetPlaying false loadState)).pausedAt =
        (opSetPlaying false loadState).pausedAt + 3) ∧
    (pausedAfter 3 (opSetPlaying false loadState)).pausedAt = 3 := by
  constructor
  · exact c6_resume_at_paused_offset (opSetPlaying false loadState) 10 3 5
      (Reach.setPlaying false
        (Reach.loadPlay 10 (Reach.initCtx Reach.init) (by norm_num)
          (by norm_num [opInitCtx, effectRun, playbackEffect, cleanupStep,
            stopList, initState])))
      (by norm_num [opSetPlaying, opLoadPlay, opInitCtx, effectRun,
        playbackEffect, playBody, pauseBody, cleanupStep, durationEffect,
        startNewSource, primStart, primSetRef, primCreate, stopRef, stopList,
        stopApply, initState, loadState])
      (by norm_num [opSetPlaying, opLoadPlay, opInitCtx, effectRun,
        playbackEffect, playBody, pauseBody, cleanupStep, durationEffect,
        startNewSource, primStart, primSetRef, primCreate, stopRef, stopList,
        stopApply, initState, loadState])
      (by norm_num [opSetPlaying, opLoadPlay, opInitCtx, effectRun,
        playbackEffect, playBody, pauseBody, cleanupStep, durationEffect,
        startNewSource, primStart, primSetRef, primCreate, stopRef, stopList,
        stopApply, initState, loadState])
      (by norm_num [opSetPlaying, opLoadPlay, opInitCtx, effectRun,
        playbackEffect, playBody, pauseBody, cleanupStep, durationEffect,
        startNewSource, primStart, primSetRef, primCreate, stopRef, stopList,
        stopApply, initState, loadState])
      (by norm_num) (by norm_num) (by norm_num)
  · norm_num [pausedAfter, opSetPlaying, opAdvance, opLoadPlay, opInitCtx,
      effectRun, playbackEffect, playBody, pauseBody, cleanupStep,
      durationEffect, startNewSource, primStart, primSetRef, primCreate,
      stopRef, stopList, stopApply, initState, loadState]
